import Mathlib

/-!
Shallow embedding of the core of the `vortex` repository:
the command-line tokenizer `TokenizeLine` and the error-context helper
`Ellipsize` from `src/pkg/utils.go`, together with the caller
`GetTemplateFilenames` from `src/internal/disk/filename.go`.

Strings are modelled as lists of Unicode codepoints (`List Char`),
matching the `[]rune(cmdline)` conversion the tokenizer performs.
The package-level mutable variables of `pkg` (`tokenizedLines`,
`lastQuoteRune`, `lastQuotePos`, `builder`) are modelled as an explicit
state record `PkgState` threaded through the functions; Go's zero values
give the initial state.
-/

namespace Vortex

/-- Model of Go `unicode.IsSpace`: the Unicode White_Space property
(U+0009–U+000D, U+0020, U+0085, U+00A0, U+1680, U+2000–U+200A,
U+2028, U+2029, U+202F, U+205F, U+3000). -/
def goIsSpace (c : Char) : Bool :=
  (decide (9 ≤ c.toNat) && decide (c.toNat ≤ 13)) || c.toNat == 32 ||
  c.toNat == 133 || c.toNat == 160 || c.toNat == 0x1680 ||
  (decide (0x2000 ≤ c.toNat) && decide (c.toNat ≤ 0x200A)) ||
  c.toNat == 0x2028 || c.toNat == 0x2029 || c.toNat == 0x202F ||
  c.toNat == 0x205F || c.toNat == 0x3000

/-- The double-quote rune U+0022, first element of `quoteRunes` in the source. -/
def dquote : Char := Char.ofNat 34

/-- The single-quote rune U+0027, second element of `quoteRunes` in the source. -/
def squote : Char := Char.ofNat 39

/-- The escape rune: `quoteEscapeRune = '\\'` (U+005C) in the source. -/
def quoteEscapeRune : Char := Char.ofNat 92

/-- The rune value 0, Go's zero value for `lastQuoteRune`, meaning "no quote open". -/
def runeZero : Char := Char.ofNat 0

/-- The recognized quote runes: `quoteRunes` in the source, a double quote and a single quote. -/
def quoteRunes : List Char := [dquote, squote]

/-- The constant `errUnterminatedQuote = 3` from the source (used as the
context-window half-width on the error path). -/
def errUnterminatedQuote : Int := 3

/-- The constant `threeChars = 3` from the source (the ellipsis threshold). -/
def threeChars : Int := 3

/-- The ellipsis marker `"..."`. -/
def ellipsisDots : List Char := ['.', '.', '.']

/-- The package-level mutable state of `pkg` in `src/pkg/utils.go`:
`tokenizedLines`, `lastQuoteRune`, `lastQuotePos` and the `strings.Builder`
`builder` (modelled by its accumulated content). -/
structure PkgState where
  tokenizedLines : List (List Char)
  lastQuoteRune : Char
  lastQuotePos : Nat
  builder : List Char
deriving DecidableEq, Repr

/-- Go's zero values for the package-level variables: a nil slice, rune 0,
position 0 and an empty builder. -/
def initState : PkgState :=
  { tokenizedLines := [], lastQuoteRune := runeZero, lastQuotePos := 0, builder := [] }

/-- The scanning loop of `TokenizeLine` (`for i := 0; i < len(cmdlineRune); i++`),
acting on the package state.  `i` is the current index into the original rune
slice and the list argument is the remaining suffix `cmdlineRune[i:]`.
The Go guards `i < len(cmdlineRune)-1 && cmdlineRune[i+1] == …` correspond to
the two-element pattern; `i = i + 1` inside the loop body corresponds to
consuming two list elements and advancing `i` by 2. -/
def tokenizeLoop : PkgState → Nat → List Char → PkgState
  | s, _, [] => s
  | s, i, [head] =>
    if s.lastQuoteRune = runeZero ∧ goIsSpace head ∧ s.builder = [] then
      s
    else if s.lastQuoteRune ≠ runeZero then
      -- the escape lookahead needs i < len-1, impossible on the last rune
      if head = s.lastQuoteRune then { s with lastQuoteRune := runeZero }
      else { s with builder := s.builder ++ [head] }
    else if head ∈ quoteRunes then
      { s with lastQuoteRune := head, lastQuotePos := i }
    else if goIsSpace head then
      { s with tokenizedLines := s.tokenizedLines ++ [s.builder], builder := [] }
    else
      { s with builder := s.builder ++ [head] }
  | s, i, head :: next :: rest =>
    if s.lastQuoteRune = runeZero ∧ goIsSpace head ∧ s.builder = [] then
      tokenizeLoop s (i + 1) (next :: rest)
    else if s.lastQuoteRune ≠ runeZero then
      if head = quoteEscapeRune ∧ next = s.lastQuoteRune then
        tokenizeLoop { s with builder := s.builder ++ [s.lastQuoteRune] } (i + 2) rest
      else if head = s.lastQuoteRune then
        tokenizeLoop { s with lastQuoteRune := runeZero } (i + 1) (next :: rest)
      else
        tokenizeLoop { s with builder := s.builder ++ [head] } (i + 1) (next :: rest)
    else if head = quoteEscapeRune ∧ next ∈ quoteRunes then
      -- the loop over quoteRunes writes the matching qr, i.e. `next` itself
      tokenizeLoop { s with builder := s.builder ++ [next] } (i + 2) rest
    else if head ∈ quoteRunes then
      tokenizeLoop { s with lastQuoteRune := head, lastQuotePos := i } (i + 1) (next :: rest)
    else if goIsSpace head then
      tokenizeLoop { s with tokenizedLines := s.tokenizedLines ++ [s.builder], builder := [] }
        (i + 1) (next :: rest)
    else
      tokenizeLoop { s with builder := s.builder ++ [head] } (i + 1) (next :: rest)

/-- The unterminated-quote error: `errors.Errorf("Unterminated quote at position %d: %s",
lastQuotePos, context)`, modelled by its two data. -/
structure TokError where
  pos : Nat
  context : List Char
deriving DecidableEq, Repr

/-- Function `Ellipsize(from, to, val)` from `src/pkg/utils.go`.  `from`/`to` are Go
`int`s, hence `Int` here; the slice `val[pre:post]` is taken on the list of
codepoints.  The source clamps `preContextIndex` to 0 when `from <= threeChars`
and `postContextIndex` to `len(val)` when `to >= len(val)-threeChars`, choosing
the ellipsis prefix/suffix accordingly. -/
def Ellipsize (f t : Int) (val : List Char) : List Char :=
  let preContextIndex : Int := if f ≤ threeChars then 0 else f
  let preContext : List Char := if f ≤ threeChars then [] else ellipsisDots
  let postContextIndex : Int :=
    if t ≥ (val.length : Int) - threeChars then (val.length : Int) else t
  let postContext : List Char :=
    if t ≥ (val.length : Int) - threeChars then [] else ellipsisDots
  preContext ++ (val.drop preContextIndex.toNat).take (postContextIndex - preContextIndex).toNat
    ++ postContext

/-- Function `TokenizeLine(cmdline)` from `src/pkg/utils.go`, acting on an explicit
package state.  Returns the new package state together with the pair of Go
return values: the token slice (`none` models a nil slice) and the error.
On an unterminated quote it returns `nil` and the positional error built with
`Ellipsize`; otherwise it appends the final non-empty builder content (without
resetting the builder, as in the source) and returns `tokenizedLines`. -/
def TokenizeLine (s₀ : PkgState) (cmdline : List Char) :
    PkgState × Option (List (List Char)) × Option TokError :=
  let s := tokenizeLoop s₀ 0 cmdline
  if s.lastQuoteRune ≠ runeZero then
    -- Go: `if lastQuoteRune > 0` (runes here are 0, '"' or '\'')
    let context := Ellipsize ((s.lastQuotePos : Int) - errUnterminatedQuote)
      ((s.lastQuotePos : Int) + errUnterminatedQuote + 1) cmdline
    (s, none, some { pos := s.lastQuotePos, context := context })
  else if s.builder ≠ [] then
    ({ s with tokenizedLines := s.tokenizedLines ++ [s.builder] },
      some (s.tokenizedLines ++ [s.builder]), none)
  else
    (s, some s.tokenizedLines, none)

/-- A single call of `TokenizeLine` on fresh (zero-valued) package state,
projected to the Go return values. -/
def tokenize (cmdline : List Char) : Option (List (List Char)) × Option TokError :=
  (TokenizeLine initState cmdline).2

/-- The one-character transition of the scanning loop: what an iteration of
`TokenizeLine`'s loop does when neither escape branch fires (both escape
branches consult the next rune; every other branch looks only at the current
rune `head`).  Auxiliary definition for reasoning about `tokenizeLoop`. -/
def step1 (s : PkgState) (i : Nat) (head : Char) : PkgState :=
  if s.lastQuoteRune = runeZero ∧ goIsSpace head ∧ s.builder = [] then
    s
  else if s.lastQuoteRune ≠ runeZero then
    if head = s.lastQuoteRune then { s with lastQuoteRune := runeZero }
    else { s with builder := s.builder ++ [head] }
  else if head ∈ quoteRunes then
    { s with lastQuoteRune := head, lastQuotePos := i }
  else if goIsSpace head then
    { s with tokenizedLines := s.tokenizedLines ++ [s.builder], builder := [] }
  else
    { s with builder := s.builder ++ [head] }

/-- The condition under which an iteration of the loop consumes two runes:
the current rune is the escape rune and the next rune is the currently-open
quote rune (inside a quote), or a recognized quote rune (outside a quote). -/
def escTrigger (s : PkgState) (head : Char) (next? : Option Char) : Prop :=
  head = quoteEscapeRune ∧
    ((s.lastQuoteRune ≠ runeZero ∧ next? = some s.lastQuoteRune) ∨
     (s.lastQuoteRune = runeZero ∧ (next? = some dquote ∨ next? = some squote)))

/-- The tokens `TokenizeLine` would return if the scan ended in state `s`
without an open quote: `tokenizedLines`, extended by the builder content when
non-empty.  Auxiliary definition for reasoning about `TokenizeLine`. -/
def returnedTokens (s : PkgState) : List (List Char) :=
  s.tokenizedLines ++ if s.builder = [] then [] else [s.builder]

/-- The whitespace-delimited split of a string with empty entries collapsed.
This is the specification's description of tokenization for quote-free input
(spec §8: "tokens = the whitespace-delimited split of the input, with empty
entries collapsed"); it is compared with `tokenize` in the C2 theorem. -/
def wsSplit (cs : List Char) : List (List Char) :=
  (cs.splitOnP goIsSpace).filter (fun t => t ≠ [])

/-- Error values of the `disk` package, modelling Go `error` results:
a failed `os.Stdin.Stat`, a failed `io.ReadAll`, a tokenizer error, or an
error annotated by `errors.Wrap`. -/
inductive GoErr where
  | statFailed : GoErr
  | readFailed : GoErr
  | tok : TokError → GoErr
  | wrap : List Char → GoErr → GoErr
deriving DecidableEq, Repr

/-- Model of `errors.Wrap` from github.com/pkg/errors, as used by
`src/internal/disk/filename.go`: "Wrap returns err with a message annotation;
if err is nil, Wrap returns nil". -/
def errorsWrap (err : Option GoErr) (msg : List Char) : Option GoErr :=
  match err with
  | none => none
  | some e => some (.wrap msg e)

/-- The process environment consulted by `GetTemplateFilenames`:
the command-line arguments left after flag parsing (`flag.Args()`), whether
`os.Stdin.Stat()` fails, whether standard input is a character device
(`fi.Mode() & os.ModeCharDevice != 0`), whether `io.ReadAll(os.Stdin)` fails,
and the content read from standard input. -/
structure DiskEnv where
  flagArgs : List (List Char)
  stdinStatFails : Bool
  stdinIsCharDevice : Bool
  stdinReadFails : Bool
  stdinContent : List Char
deriving DecidableEq, Repr

/-- Function `GetTemplateFilenames` from `src/internal/disk/filename.go`, acting on the
package-level variable `localTemplateFilenames` and (through `pkg.TokenizeLine`)
on the `pkg` state.  Returns the pair of Go return values (`none` models a nil
slice / nil error) together with the updated `localTemplateFilenames` and `pkg`
state.  Note that on the "filenames provided via stdin and as arguments" branch
the source wraps `err`, which is necessarily nil there (the non-nil case
returned two lines earlier), so `errors.Wrap` yields nil. -/
def GetTemplateFilenames (env : DiskEnv) (localTemplateFilenames : List (List Char))
    (ps : PkgState) :
    (Option (List (List Char)) × Option GoErr) × List (List Char) × PkgState :=
  let ltf := if env.flagArgs.length ≥ 1 then env.flagArgs else localTemplateFilenames
  if env.stdinStatFails then
    ((none, errorsWrap (some .statFailed) ("Failed to get file info".toList)), ltf, ps)
  else if env.stdinIsCharDevice = false then
    if env.stdinReadFails then
      ((none, errorsWrap (some .readFailed) ("Failed to read from stdin".toList)), ltf, ps)
    else
      let r := TokenizeLine ps env.stdinContent
      match r.2.2 with
      | some e => ((none, errorsWrap (some (.tok e)) ("Failed to tokenize line".toList)),
          ltf, r.1)
      | none =>
        let localTemplateFilenamesViaPipe := r.2.1.getD []
        if localTemplateFilenamesViaPipe.length > 0 then
          ((none, errorsWrap none
              ("Template filenames are provided via stdin and as arguments".toList)),
            ltf, r.1)
        else
          ((some (ltf ++ localTemplateFilenamesViaPipe), none),
            ltf ++ localTemplateFilenamesViaPipe, r.1)
  else
    ((some ltf, none), ltf, ps)

/-! ### Basic facts about the constants -/

theorem mem_quoteRunes {c : Char} : c ∈ quoteRunes ↔ c = dquote ∨ c = squote := by
  simp [quoteRunes]

theorem dquote_ne_runeZero : dquote ≠ runeZero := by decide

theorem squote_ne_runeZero : squote ≠ runeZero := by decide

theorem goIsSpace_dquote : goIsSpace dquote = false := by decide

theorem goIsSpace_squote : goIsSpace squote = false := by decide

theorem goIsSpace_escape : goIsSpace quoteEscapeRune = false := by decide

/-! ### The loop as a fold of one-character steps -/

/-- When the escape lookahead does not fire, one iteration of the scanning
loop is exactly `step1` on the head rune. -/
theorem tokenizeLoop_cons (s : PkgState) (i : Nat) (head : Char) (rest : List Char)
    (hesc : ¬ escTrigger s head rest.head?) :
    tokenizeLoop s i (head :: rest) = tokenizeLoop (step1 s i head) (i + 1) rest := by
  cases rest with
  | nil => rfl
  | cons next rest2 =>
    simp only [escTrigger, List.head?_cons, Option.some.injEq] at hesc
    simp only [tokenizeLoop, step1]
    by_cases hA : s.lastQuoteRune = runeZero ∧ goIsSpace head ∧ s.builder = []
    · simp only [if_pos hA]
    · simp only [if_neg hA]
      by_cases hB : s.lastQuoteRune ≠ runeZero
      · have hC : ¬(head = quoteEscapeRune ∧ next = s.lastQuoteRune) := by
          rintro ⟨h1, h2⟩
          exact hesc ⟨h1, Or.inl ⟨hB, h2⟩⟩
        simp only [if_pos hB, if_neg hC]
        by_cases hD : head = s.lastQuoteRune
        · simp only [if_pos hD]
        · simp only [if_neg hD]
      · have h0 : s.lastQuoteRune = runeZero := not_not.mp hB
        have hE : ¬(head = quoteEscapeRune ∧ next ∈ quoteRunes) := by
          rintro ⟨h1, h2⟩
          rcases mem_quoteRunes.mp h2 with h | h
          · exact hesc ⟨h1, Or.inr ⟨h0, Or.inl h⟩⟩
          · exact hesc ⟨h1, Or.inr ⟨h0, Or.inr h⟩⟩
        simp only [if_neg hB, if_neg hE]
        by_cases hF : head ∈ quoteRunes
        · simp only [if_pos hF]
        · simp only [if_neg hF]
          by_cases hG : (goIsSpace head : Prop)
          · simp only [if_pos hG]
          · simp only [if_neg hG]

/-- Inside a quote, an escape rune followed by the open quote rune writes the
quote rune into the builder and consumes both runes. -/
theorem tokenizeLoop_esc_inQuote (s : PkgState) (i : Nat) (rest : List Char)
    (h : s.lastQuoteRune ≠ runeZero) :
    tokenizeLoop s i (quoteEscapeRune :: s.lastQuoteRune :: rest) =
      tokenizeLoop { s with builder := s.builder ++ [s.lastQuoteRune] } (i + 2) rest := by
  simp [tokenizeLoop, h]

/-- Outside a quote, an escape rune followed by a recognized quote rune writes
that quote rune into the builder and consumes both runes. -/
theorem tokenizeLoop_esc_noQuote (s : PkgState) (i : Nat) (next : Char) (rest : List Char)
    (h : s.lastQuoteRune = runeZero) (hn : next ∈ quoteRunes) :
    tokenizeLoop s i (quoteEscapeRune :: next :: rest) =
      tokenizeLoop { s with builder := s.builder ++ [next] } (i + 2) rest := by
  simp [tokenizeLoop, h, hn, goIsSpace_escape]

/-- When the scan ends with no open quote, `TokenizeLine` returns the
accumulated tokens (extended by the final non-empty builder content) and a nil
error. -/
theorem TokenizeLine_success (s₀ : PkgState) (cs : List Char)
    (h : (tokenizeLoop s₀ 0 cs).lastQuoteRune = runeZero) :
    (TokenizeLine s₀ cs).2 = (some (returnedTokens (tokenizeLoop s₀ 0 cs)), none) := by
  by_cases hb : (tokenizeLoop s₀ 0 cs).builder = [] <;>
    simp [TokenizeLine, returnedTokens, h, hb]

/-- When the scan ends with an open quote, `TokenizeLine` returns a nil token
slice and the positional error with its `Ellipsize` context. -/
theorem TokenizeLine_failure (s₀ : PkgState) (cs : List Char)
    (h : (tokenizeLoop s₀ 0 cs).lastQuoteRune ≠ runeZero) :
    (TokenizeLine s₀ cs).2 =
      (none,
        some { pos := (tokenizeLoop s₀ 0 cs).lastQuotePos,
               context := Ellipsize
                 (((tokenizeLoop s₀ 0 cs).lastQuotePos : Int) - errUnterminatedQuote)
                 (((tokenizeLoop s₀ 0 cs).lastQuotePos : Int) + errUnterminatedQuote + 1)
                 cs }) := by
  simp [TokenizeLine, h]

/-! ### A preservation principle for the scanning loop -/

/-- Any property of the package state that is preserved by the one-character
step `step1` and by the two escape writes is preserved by the whole scan.
The hypotheses receive indexed-access facts identifying the input runes that
drove each branch. -/
theorem tokenizeLoop_preserveAux (P : PkgState → Prop) (orig : List Char)
    (hstep : ∀ s i c, orig[i]? = some c → P s → P (step1 s i c))
    (hesc1 : ∀ (s : PkgState) (i : Nat), orig[i]? = some quoteEscapeRune →
      orig[i + 1]? = some s.lastQuoteRune → s.lastQuoteRune ≠ runeZero →
      P s → P { s with builder := s.builder ++ [s.lastQuoteRune] })
    (hesc2 : ∀ (s : PkgState) (i : Nat) (c : Char), orig[i]? = some quoteEscapeRune →
      orig[i + 1]? = some c → c ∈ quoteRunes → s.lastQuoteRune = runeZero →
      P s → P { s with builder := s.builder ++ [c] }) :
    ∀ (n : Nat) (l : List Char), l.length ≤ n → ∀ (i : Nat), orig.drop i = l →
      ∀ s, P s → P (tokenizeLoop s i l) := by
  intro n
  induction n with
  | zero =>
    intro l hl i hdrop s hP
    have hnil : l = [] := List.length_eq_zero.mp (Nat.le_zero.mp hl)
    subst hnil
    exact hP
  | succ n ih =>
    intro l hl i hdrop s hP
    cases l with
    | nil => exact hP
    | cons head rest =>
      have hgeti : orig[i]? = some head := by
        rw [← List.head?_drop, hdrop]; rfl
      have hdrop1 : orig.drop (i + 1) = rest := by
        have h1 := congrArg (List.drop 1) hdrop
        rwa [List.drop_drop] at h1
      simp only [List.length_cons] at hl
      by_cases htrig : escTrigger s head rest.head?
      · obtain ⟨h1, h2⟩ := htrig
        subst h1
        rcases h2 with ⟨hne, hh⟩ | ⟨hz, hh⟩
        · cases rest with
          | nil => simp at hh
          | cons next rest2 =>
            have hnext : next = s.lastQuoteRune := by simpa using hh
            subst hnext
            have hgetn : orig[i + 1]? = some s.lastQuoteRune := by
              rw [← List.head?_drop, hdrop1]; rfl
            have hdrop2 : orig.drop (i + 2) = rest2 := by
              have h2 := congrArg (List.drop 1) hdrop1
              rwa [List.drop_drop] at h2
            rw [tokenizeLoop_esc_inQuote s i rest2 hne]
            exact ih rest2 (by simp only [List.length_cons] at hl; omega) (i + 2) hdrop2 _
              (hesc1 s i hgeti hgetn hne hP)
        · have hqr : ∃ qq, rest.head? = some qq ∧ qq ∈ quoteRunes := by
            rcases hh with hh | hh
            · exact ⟨dquote, hh, by simp [quoteRunes]⟩
            · exact ⟨squote, hh, by simp [quoteRunes]⟩
          obtain ⟨qq, hq1, hq2⟩ := hqr
          cases rest with
          | nil => simp at hq1
          | cons next rest2 =>
            have hnext : next = qq := by simpa using hq1
            subst hnext
            have hgetn : orig[i + 1]? = some next := by
              rw [← List.head?_drop, hdrop1]; rfl
            have hdrop2 : orig.drop (i + 2) = rest2 := by
              have h2 := congrArg (List.drop 1) hdrop1
              rwa [List.drop_drop] at h2
            rw [tokenizeLoop_esc_noQuote s i next rest2 hz hq2]
            exact ih rest2 (by simp only [List.length_cons] at hl; omega) (i + 2) hdrop2 _
              (hesc2 s i next hgeti hgetn hq2 hz hP)
      · rw [tokenizeLoop_cons s i head rest htrig]
        exact ih rest (by omega) (i + 1) hdrop1 _ (hstep s i head hgeti hP)

/-- Entry point of the preservation principle: the scan of the whole input. -/
theorem tokenizeLoop_preserve (P : PkgState → Prop) (orig : List Char)
    (hstep : ∀ s i c, orig[i]? = some c → P s → P (step1 s i c))
    (hesc1 : ∀ (s : PkgState) (i : Nat), orig[i]? = some quoteEscapeRune →
      orig[i + 1]? = some s.lastQuoteRune → s.lastQuoteRune ≠ runeZero →
      P s → P { s with builder := s.builder ++ [s.lastQuoteRune] })
    (hesc2 : ∀ (s : PkgState) (i : Nat) (c : Char), orig[i]? = some quoteEscapeRune →
      orig[i + 1]? = some c → c ∈ quoteRunes → s.lastQuoteRune = runeZero →
      P s → P { s with builder := s.builder ++ [c] })
    (s : PkgState) (hP : P s) : P (tokenizeLoop s 0 orig) :=
  tokenizeLoop_preserveAux P orig hstep hesc1 hesc2 orig.length orig le_rfl 0
    (List.drop_zero orig) s hP

/-- If a quote is still open after scanning the whole input from fresh state,
the open quote rune is a recognized quote rune sitting in the input at the
recorded position `lastQuotePos`. -/
theorem tokenizeLoop_quoteInv (orig : List Char) :
    (tokenizeLoop initState 0 orig).lastQuoteRune ≠ runeZero →
      (tokenizeLoop initState 0 orig).lastQuoteRune ∈ quoteRunes ∧
        orig[(tokenizeLoop initState 0 orig).lastQuotePos]? =
          some (tokenizeLoop initState 0 orig).lastQuoteRune := by
  refine tokenizeLoop_preserve
    (fun s => s.lastQuoteRune ≠ runeZero →
      s.lastQuoteRune ∈ quoteRunes ∧ orig[s.lastQuotePos]? = some s.lastQuoteRune)
    orig ?_ ?_ ?_ initState ?_
  · intro s i c hget hP
    simp only [step1]
    split_ifs with hA hB hC hF hG
    · exact hP
    · intro hne; exact absurd rfl hne
    · exact hP
    · exact fun _ => ⟨hF, hget⟩
    · exact hP
    · exact hP
  · intro s i _ _ _ hP; exact hP
  · intro s i c _ _ _ _ hP; exact hP
  · intro hne; exact absurd rfl hne

/-- The scan never records an empty token: the whitespace flush fires only
with a non-empty builder, because the empty-builder whitespace case is
skipped by the first branch of the loop. -/
theorem tokenizeLoop_noEmptyTokens (orig : List Char) :
    [] ∉ (tokenizeLoop initState 0 orig).tokenizedLines := by
  refine tokenizeLoop_preserve (fun s => [] ∉ s.tokenizedLines) orig ?_ ?_ ?_ initState ?_
  · intro s i c _ hP
    simp only [step1]
    split_ifs with hA hB hC hF hG
    · exact hP
    · exact hP
    · exact hP
    · exact hP
    · have hb : s.builder ≠ [] := fun hb => hA ⟨not_not.mp hB, hG, hb⟩
      show [] ∉ s.tokenizedLines ++ [s.builder]
      simp only [List.mem_append, List.mem_singleton]
      rintro (h | h)
      · exact hP h
      · exact hb h.symm
    · exact hP
  · intro s i _ _ _ hP; exact hP
  · intro s i c _ _ _ _ hP; exact hP
  · simp [initState]

/-- If the input contains no escape rune and omits one of the two recognized
quote runes (`q'`), then throughout the scan the open quote rune can only be
the other quote rune `q`, and no quote rune is ever written into the builder
or into the recorded tokens: every quote rune of the input acts as a
delimiter. -/
theorem tokenizeLoop_noQuoteChars (orig : List Char) (q q' : Char)
    (hqq : q = dquote ∧ q' = squote ∨ q = squote ∧ q' = dquote)
    (hescn : quoteEscapeRune ∉ orig) (hq' : q' ∉ orig) :
    ((tokenizeLoop initState 0 orig).lastQuoteRune = runeZero ∨
      (tokenizeLoop initState 0 orig).lastQuoteRune = q) ∧
    (∀ c ∈ (tokenizeLoop initState 0 orig).builder, c ≠ dquote ∧ c ≠ squote) ∧
    (∀ t ∈ (tokenizeLoop initState 0 orig).tokenizedLines,
      ∀ c ∈ t, c ≠ dquote ∧ c ≠ squote) := by
  refine tokenizeLoop_preserve (fun s =>
    (s.lastQuoteRune = runeZero ∨ s.lastQuoteRune = q) ∧
    (∀ c ∈ s.builder, c ≠ dquote ∧ c ≠ squote) ∧
    (∀ t ∈ s.tokenizedLines, ∀ c ∈ t, c ≠ dquote ∧ c ≠ squote)) orig ?_ ?_ ?_ initState ?_
  · intro s i c hget hP
    have hcmem : c ∈ orig := List.getElem?_mem hget
    have hcq' : c ≠ q' := fun hcq => hq' (hcq ▸ hcmem)
    obtain ⟨hP1, hP2, hP3⟩ := hP
    simp only [step1]
    split_ifs with hA hB hC hF hG
    · exact ⟨hP1, hP2, hP3⟩
    · exact ⟨Or.inl rfl, hP2, hP3⟩
    · -- append inside the open quote: c ≠ q since the close branch did not fire
      refine ⟨hP1, ?_, hP3⟩
      show ∀ x ∈ s.builder ++ [c], x ≠ dquote ∧ x ≠ squote
      intro x hx
      rcases List.mem_append.mp hx with hx | hx
      · exact hP2 x hx
      · have hxc : x = c := List.mem_singleton.mp hx
        subst hxc
        have hlq : s.lastQuoteRune = q := by
          rcases hP1 with h | h
          · exact absurd h hB
          · exact h
        have hcq : x ≠ q := fun hh => hC (hh.trans hlq.symm)
        rcases hqq with ⟨e1, e2⟩ | ⟨e1, e2⟩
        · exact ⟨e1 ▸ hcq, e2 ▸ hcq'⟩
        · exact ⟨e2 ▸ hcq', e1 ▸ hcq⟩
    · -- open a quote: c ∈ quoteRunes and c ≠ q' force c = q
      refine ⟨?_, hP2, hP3⟩
      show c = runeZero ∨ c = q
      right
      rcases hqq with ⟨e1, e2⟩ | ⟨e1, e2⟩ <;> rcases mem_quoteRunes.mp hF with hc | hc
      · exact hc.trans e1.symm
      · exact absurd hc (e2 ▸ hcq')
      · exact absurd hc (e2 ▸ hcq')
      · exact hc.trans e1.symm
    · -- flush the builder as a token
      refine ⟨hP1, by intro x hx; exact absurd hx (List.not_mem_nil x), ?_⟩
      show ∀ t ∈ s.tokenizedLines ++ [s.builder], ∀ c2 ∈ t, c2 ≠ dquote ∧ c2 ≠ squote
      intro t ht
      rcases List.mem_append.mp ht with ht | ht
      · exact hP3 t ht
      · have hts : t = s.builder := List.mem_singleton.mp ht
        subst hts
        exact hP2
    · -- append outside any quote: c is not a quote rune
      refine ⟨hP1, ?_, hP3⟩
      show ∀ x ∈ s.builder ++ [c], x ≠ dquote ∧ x ≠ squote
      intro x hx
      rcases List.mem_append.mp hx with hx | hx
      · exact hP2 x hx
      · have hxc : x = c := List.mem_singleton.mp hx
        subst hxc
        exact ⟨fun hh => hF (mem_quoteRunes.mpr (Or.inl hh)),
          fun hh => hF (mem_quoteRunes.mpr (Or.inr hh))⟩
  · intro s i hg _ _ _; exact (hescn (List.getElem?_mem hg)).elim
  · intro s i c hg _ _ _ _; exact (hescn (List.getElem?_mem hg)).elim
  · exact ⟨Or.inl rfl, by simp [initState], by simp [initState]⟩

/-! ### Quote-free input: the scan is the whitespace split -/

theorem mem_of_head?_eq {α : Type} {l : List α} {a : α} (h : l.head? = some a) : a ∈ l := by
  cases l with
  | nil => simp at h
  | cons x xs =>
    have hx : x = a := by simpa using h
    exact hx ▸ List.mem_cons_self x xs

theorem modifyHead_fun_id (l : List (List Char)) : l.modifyHead (fun x => x) = l := by
  cases l <;> rfl

theorem modifyHead_nil_append (l : List (List Char)) :
    l.modifyHead (fun x => [] ++ x) = l := by
  cases l <;> simp

/-- Scanning quote-free input from a no-open-quote state: no quote ever opens,
`lastQuotePos` never moves, and the would-be return tokens are the accumulated
tokens followed by the whitespace split of the remaining input, whose first
piece is extended by the builder content. -/
theorem tokenizeLoop_quoteFree (cs : List Char) (hq : ∀ c ∈ cs, c ∉ quoteRunes) :
    ∀ (T : List (List Char)) (p : Nat) (b : List Char) (i : Nat),
      (tokenizeLoop ⟨T, runeZero, p, b⟩ i cs).lastQuoteRune = runeZero ∧
      (tokenizeLoop ⟨T, runeZero, p, b⟩ i cs).lastQuotePos = p ∧
      returnedTokens (tokenizeLoop ⟨T, runeZero, p, b⟩ i cs) =
        T ++ ((cs.splitOnP goIsSpace).modifyHead (fun x => b ++ x)).filter
          (fun t => t ≠ []) := by
  induction cs with
  | nil =>
    intro T p b i
    refine ⟨rfl, rfl, ?_⟩
    by_cases hb : b = [] <;>
      simp [tokenizeLoop, returnedTokens, List.splitOnP_nil, hb]
  | cons c cs ih =>
    intro T p b i
    have hc : c ∉ quoteRunes := hq c (List.mem_cons_self c cs)
    have hq2 : ∀ x ∈ cs, x ∉ quoteRunes := fun x hx => hq x (List.mem_cons_of_mem c hx)
    have htrig : ¬ escTrigger ⟨T, runeZero, p, b⟩ c cs.head? := by
      rintro ⟨h1, ⟨hne, _⟩ | ⟨_, hh | hh⟩⟩
      · exact hne rfl
      · exact hq2 dquote (mem_of_head?_eq hh) (by simp [quoteRunes])
      · exact hq2 squote (mem_of_head?_eq hh) (by simp [quoteRunes])
    rw [tokenizeLoop_cons _ i c cs htrig]
    by_cases hsp : (goIsSpace c : Prop)
    · by_cases hb : b = []
      · have hstep : step1 ⟨T, runeZero, p, b⟩ i c = ⟨T, runeZero, p, b⟩ := by
          simp [step1, hsp, hb]
        rw [hstep]
        obtain ⟨ih1, ih2, ih3⟩ := ih hq2 T p b (i + 1)
        refine ⟨ih1, ih2, ?_⟩
        rw [ih3, hb, List.splitOnP_cons, if_pos hsp]
        simp [modifyHead_nil_append, modifyHead_fun_id]
      · have hstep : step1 ⟨T, runeZero, p, b⟩ i c = ⟨T ++ [b], runeZero, p, []⟩ := by
          simp [step1, hsp, hb, hc]
        rw [hstep]
        obtain ⟨ih1, ih2, ih3⟩ := ih hq2 (T ++ [b]) p [] (i + 1)
        refine ⟨ih1, ih2, ?_⟩
        rw [ih3, List.splitOnP_cons, if_pos hsp]
        simp [modifyHead_nil_append, modifyHead_fun_id, hb]
    · have hstep : step1 ⟨T, runeZero, p, b⟩ i c = ⟨T, runeZero, p, b ++ [c]⟩ := by
        simp [step1, hsp, hc]
      rw [hstep]
      obtain ⟨ih1, ih2, ih3⟩ := ih hq2 T p (b ++ [c]) (i + 1)
      refine ⟨ih1, ih2, ?_⟩
      rw [ih3, List.splitOnP_cons, if_neg hsp, List.modifyHead_modifyHead]
      have hcomp : ((fun x => b ++ x) ∘ List.cons c) = (fun x : List Char => (b ++ [c]) ++ x) := by
        funext x; simp
      rw [hcomp]

/-- Calling `TokenizeLine` on fresh state with quote-free input returns exactly the
whitespace split of the input with empty entries collapsed, and no error. -/
theorem tokenize_quoteFree (cs : List Char) (hq : ∀ c ∈ cs, c ∉ quoteRunes) :
    tokenize cs = (some (wsSplit cs), none) := by
  obtain ⟨h1, _, h3⟩ := tokenizeLoop_quoteFree cs hq [] 0 [] 0
  have h1x : (tokenizeLoop initState 0 cs).lastQuoteRune = runeZero := h1
  have h3x : returnedTokens (tokenizeLoop initState 0 cs) =
      [] ++ ((cs.splitOnP goIsSpace).modifyHead (fun x => [] ++ x)).filter
        (fun t => t ≠ []) := h3
  rw [List.nil_append, modifyHead_nil_append] at h3x
  show (TokenizeLine initState cs).2 = (some (wsSplit cs), none)
  rw [TokenizeLine_success initState cs h1x, h3x]
  rfl

/-! ### Inside a quote: literal content is appended verbatim -/

/-- While a quote `q` is open, a stretch of runes containing neither the
escape rune nor `q` is appended to the builder verbatim (whitespace
included). -/
theorem tokenizeLoop_inQuote (q : Char) (hqz : q ≠ runeZero) (w : List Char)
    (hw : ∀ c ∈ w, c ≠ quoteEscapeRune ∧ c ≠ q) :
    ∀ (T : List (List Char)) (p : Nat) (b : List Char) (i : Nat) (rest : List Char),
      tokenizeLoop ⟨T, q, p, b⟩ i (w ++ rest) =
        tokenizeLoop ⟨T, q, p, b ++ w⟩ (i + w.length) rest := by
  induction w with
  | nil => intro T p b i rest; simp
  | cons c w ihw =>
    intro T p b i rest
    have hcw := hw c (List.mem_cons_self c w)
    have hw2 : ∀ x ∈ w, x ≠ quoteEscapeRune ∧ x ≠ q :=
      fun x hx => hw x (List.mem_cons_of_mem c hx)
    have htrig : ¬ escTrigger ⟨T, q, p, b⟩ c (w ++ rest).head? := by
      rintro ⟨h1, _⟩
      exact hcw.1 h1
    rw [List.cons_append, tokenizeLoop_cons _ i c (w ++ rest) htrig]
    have hstep : step1 ⟨T, q, p, b⟩ i c = ⟨T, q, p, b ++ [c]⟩ := by
      simp [step1, hqz, hcw.2]
    rw [hstep, ihw hw2 T p (b ++ [c]) (i + 1) rest]
    have hidx : i + 1 + w.length = i + (c :: w).length := by
      simp only [List.length_cons]; omega
    rw [hidx, show (b ++ [c]) ++ w = b ++ c :: w from by simp]

/-! ### Helpers for the claim theorems -/

theorem not_quote_of_space {c : Char} (h : goIsSpace c) : c ∉ quoteRunes := by
  intro hq
  rcases mem_quoteRunes.mp hq with rfl | rfl
  · rw [goIsSpace_dquote] at h; exact absurd h (by simp)
  · rw [goIsSpace_squote] at h; exact absurd h (by simp)

theorem wsSplit_allSpace (cs : List Char) (h : ∀ c ∈ cs, goIsSpace c) : wsSplit cs = [] := by
  induction cs with
  | nil => simp [wsSplit, List.splitOnP_nil]
  | cons c cs ih =>
    have hc : (goIsSpace c : Prop) := h c (List.mem_cons_self c cs)
    have h2 : ∀ x ∈ cs, goIsSpace x := fun x hx => h x (List.mem_cons_of_mem c hx)
    have hcs := ih h2
    rw [wsSplit] at hcs ⊢
    rw [List.splitOnP_cons, if_pos hc]
    simpa using hcs

/-- A failing `tokenize` reports a position at which the input holds a
recognized quote rune (the one that is still open). -/
theorem tokenize_error_pos (cs : List Char) (e : TokError)
    (h : (tokenize cs).2 = some e) :
    ∃ q, (q = dquote ∨ q = squote) ∧ cs[e.pos]? = some q := by
  by_cases hz : (tokenizeLoop initState 0 cs).lastQuoteRune = runeZero
  · have h' : (TokenizeLine initState cs).2.2 = some e := h
    rw [TokenizeLine_success initState cs hz] at h'
    simp at h'
  · have h' : (TokenizeLine initState cs).2.2 = some e := h
    rw [TokenizeLine_failure initState cs hz] at h'
    have he : e.pos = (tokenizeLoop initState 0 cs).lastQuotePos := by
      have := (Option.some.injEq _ _).mp h'.symm
      rw [this]
    obtain ⟨hmem, hget⟩ := tokenizeLoop_quoteInv cs hz
    exact ⟨(tokenizeLoop initState 0 cs).lastQuoteRune, mem_quoteRunes.mp hmem,
      by rw [he]; exact hget⟩

/-- A position reported by a failing `tokenize` is inside the input. -/
theorem tokenize_error_pos_lt (cs : List Char) (e : TokError)
    (h : (tokenize cs).2 = some e) : e.pos < cs.length := by
  obtain ⟨q, _, hget⟩ := tokenize_error_pos cs e h
  by_contra hge
  rw [List.getElem?_eq_none (by omega)] at hget
  exact Option.noConfusion hget

/-- A successful `tokenize` returns exactly the tokens accumulated by the
scan, extended by the final non-empty builder content. -/
theorem tokenize_ok_returnedTokens (cs : List Char) (ts : List (List Char))
    (h : (tokenize cs).1 = some ts) :
    (tokenizeLoop initState 0 cs).lastQuoteRune = runeZero ∧
    ts = returnedTokens (tokenizeLoop initState 0 cs) := by
  by_cases hz : (tokenizeLoop initState 0 cs).lastQuoteRune = runeZero
  · refine ⟨hz, ?_⟩
    have h' : (TokenizeLine initState cs).2.1 = some ts := h
    rw [TokenizeLine_success initState cs hz] at h'
    exact ((Option.some.injEq _ _).mp h').symm
  · have h' : (TokenizeLine initState cs).2.1 = some ts := h
    rw [TokenizeLine_failure initState cs hz] at h'
    exact absurd h' (by simp)

/-! ### The claims -/

/-- C1.  `TokenizeLine` (on fresh state) fails exactly when a quote is still
open at the end of the input; the error's 0-based position indexes the opening
quote rune in the input; on failure the returned token slice is nil; the empty
string and all-whitespace strings succeed with an empty token sequence. -/
theorem spec_C1 :
    (∀ (cs : List Char) (e : TokError), (tokenize cs).2 = some e →
      (tokenize cs).1 = none) ∧
    (∀ cs : List Char, (∃ e, (tokenize cs).2 = some e) ↔
      (tokenizeLoop initState 0 cs).lastQuoteRune ≠ runeZero) ∧
    (∀ (cs : List Char) (e : TokError), (tokenize cs).2 = some e →
      ∃ q, (q = dquote ∨ q = squote) ∧ cs[e.pos]? = some q) ∧
    tokenize [] = (some [], none) ∧
    (∀ cs : List Char, (∀ c ∈ cs, goIsSpace c) → tokenize cs = (some [], none)) := by
  refine ⟨?_, ?_, tokenize_error_pos, by decide, ?_⟩
  · intro cs e h
    by_cases hz : (tokenizeLoop initState 0 cs).lastQuoteRune = runeZero
    · have h' : (TokenizeLine initState cs).2.2 = some e := h
      rw [TokenizeLine_success initState cs hz] at h'
      exact absurd h' (by simp)
    · have h' : (TokenizeLine initState cs).2.1 = (none : Option (List (List Char))) := by
        rw [show (TokenizeLine initState cs).2.1 = ((TokenizeLine initState cs).2).1 from rfl,
          TokenizeLine_failure initState cs hz]
      exact h'
  · intro cs
    constructor
    · rintro ⟨e, he⟩
      intro hz
      have h' : (TokenizeLine initState cs).2.2 = some e := he
      rw [TokenizeLine_success initState cs hz] at h'
      exact absurd h' (by simp)
    · intro hz
      refine ⟨TokError.mk (tokenizeLoop initState 0 cs).lastQuotePos
        (Ellipsize
          (((tokenizeLoop initState 0 cs).lastQuotePos : Int) - errUnterminatedQuote)
          (((tokenizeLoop initState 0 cs).lastQuotePos : Int) + errUnterminatedQuote + 1)
          cs), ?_⟩
      show (TokenizeLine initState cs).2.2 = _
      rw [TokenizeLine_failure initState cs hz]
  · intro cs hsp
    have hq : ∀ c ∈ cs, c ∉ quoteRunes := fun c hc => not_quote_of_space (hsp c hc)
    rw [tokenize_quoteFree cs hq, wsSplit_allSpace cs hsp]

/-- Witness for C1: the single-quote-character input fails with position 0 and
nil tokens; the all-whitespace input succeeds with no tokens. -/
theorem spec_C1_witness :
    (tokenize [dquote]).2 = some { pos := 0, context := [dquote] } ∧
    (tokenize [dquote]).1 = none ∧
    (∀ c ∈ ([' '] : List Char), goIsSpace c) ∧
    tokenize [' '] = (some [], none) := by
  refine ⟨by decide, spec_C1.1 [dquote] { pos := 0, context := [dquote] } (by decide),
    by decide, spec_C1.2.2.2.2 [' '] (by decide)⟩

/-- C2.  On quote-free input, `tokenize` returns the whitespace-delimited
split of the input with empty entries collapsed; in particular
`tokenize "a b c" = ["a", "b", "c"]`. -/
theorem spec_C2 :
    (∀ cs : List Char, (∀ c ∈ cs, c ≠ dquote ∧ c ≠ squote) →
      tokenize cs = (some (wsSplit cs), none)) ∧
    tokenize ['a', ' ', 'b', ' ', 'c'] = (some [['a'], ['b'], ['c']], none) := by
  refine ⟨?_, by decide⟩
  intro cs hq
  refine tokenize_quoteFree cs (fun c hc hmem => ?_)
  rcases mem_quoteRunes.mp hmem with h | h
  · exact (hq c hc).1 h
  · exact (hq c hc).2 h

/-- Witness for C2: the general statement applied to the quote-free input
`"a b c"`. -/
theorem spec_C2_witness :
    (∀ c ∈ (['a', ' ', 'b', ' ', 'c'] : List Char), c ≠ dquote ∧ c ≠ squote) ∧
    tokenize ['a', ' ', 'b', ' ', 'c'] =
      (some (wsSplit ['a', ' ', 'b', ' ', 'c']), none) :=
  ⟨by decide, spec_C2.1 ['a', ' ', 'b', ' ', 'c'] (by decide)⟩

/-- C3.  When every quote rune of the input is a delimiter (no escape rune and
only one quote kind present), a successful `tokenize` never puts a quote rune
into a token; whitespace enclosed between a matched quote pair is preserved
verbatim inside a single token; in particular
`tokenize "\"hello world\" foo" = ["hello world", "foo"]`. -/
theorem spec_C3 :
    (∀ (cs : List Char) (ts : List (List Char)), quoteEscapeRune ∉ cs →
      (dquote ∉ cs ∨ squote ∉ cs) → (tokenize cs).1 = some ts →
      ∀ t ∈ ts, ∀ c ∈ t, c ≠ dquote ∧ c ≠ squote) ∧
    (∀ w : List Char, w ≠ [] → (∀ c ∈ w, c ≠ quoteEscapeRune ∧ c ≠ dquote) →
      tokenize (dquote :: w ++ [dquote]) = (some [w], none)) ∧
    tokenize [dquote, 'h', 'e', 'l', 'l', 'o', ' ', 'w', 'o', 'r', 'l', 'd', dquote,
        ' ', 'f', 'o', 'o'] =
      (some [['h', 'e', 'l', 'l', 'o', ' ', 'w', 'o', 'r', 'l', 'd'], ['f', 'o', 'o']],
        none) := by
  refine ⟨?_, ?_, by decide⟩
  · intro cs ts hesc hmiss h
    obtain ⟨hz, hts⟩ := tokenize_ok_returnedTokens cs ts h
    have hinv :
        (∀ c ∈ (tokenizeLoop initState 0 cs).builder, c ≠ dquote ∧ c ≠ squote) ∧
        (∀ t ∈ (tokenizeLoop initState 0 cs).tokenizedLines,
          ∀ c ∈ t, c ≠ dquote ∧ c ≠ squote) := by
      rcases hmiss with hmiss | hmiss
      · obtain ⟨_, h2, h3⟩ :=
          tokenizeLoop_noQuoteChars cs squote dquote (Or.inr ⟨rfl, rfl⟩) hesc hmiss
        exact ⟨h2, h3⟩
      · obtain ⟨_, h2, h3⟩ :=
          tokenizeLoop_noQuoteChars cs dquote squote (Or.inl ⟨rfl, rfl⟩) hesc hmiss
        exact ⟨h2, h3⟩
    subst hts
    intro t ht
    rw [returnedTokens] at ht
    rcases List.mem_append.mp ht with ht | ht
    · exact hinv.2 t ht
    · by_cases hb : (tokenizeLoop initState 0 cs).builder = []
      · rw [if_pos hb] at ht
        exact absurd ht (List.not_mem_nil t)
      · rw [if_neg hb] at ht
        have hteq : t = (tokenizeLoop initState 0 cs).builder := List.mem_singleton.mp ht
        subst hteq
        exact hinv.1
  · intro w hw hchars
    have htrig : ¬ escTrigger initState dquote (w ++ [dquote]).head? := by
      rintro ⟨h1, _⟩
      exact absurd h1 (by decide)
    have hloop : tokenizeLoop initState 0 (dquote :: (w ++ [dquote])) =
        (⟨[], runeZero, 0, w⟩ : PkgState) := by
      rw [tokenizeLoop_cons initState 0 dquote (w ++ [dquote]) htrig,
        show step1 initState 0 dquote = (⟨[], dquote, 0, []⟩ : PkgState) from by decide,
        show (0 : Nat) + 1 = 1 from rfl,
        tokenizeLoop_inQuote dquote (by decide) w hchars [] 0 [] 1 [dquote]]
      simp [tokenizeLoop, dquote_ne_runeZero]
    have hz : (tokenizeLoop initState 0 (dquote :: w ++ [dquote])).lastQuoteRune =
        runeZero := by
      show (tokenizeLoop initState 0 (dquote :: (w ++ [dquote]))).lastQuoteRune = runeZero
      rw [hloop]
    show (TokenizeLine initState (dquote :: w ++ [dquote])).2 = _
    rw [TokenizeLine_success _ _ hz]
    show (some (returnedTokens (tokenizeLoop initState 0 (dquote :: (w ++ [dquote])))),
      (none : Option TokError)) = _
    rw [hloop]
    simp [returnedTokens, hw]

/-- Witness for C3: a quote-free-content success, an enclosed-whitespace span,
each instantiating the universally quantified conjuncts. -/
theorem spec_C3_witness :
    (∀ t ∈ [(['a', 'b'] : List Char)], ∀ c ∈ t, c ≠ dquote ∧ c ≠ squote) ∧
    tokenize (dquote :: [' ', 'x', ' '] ++ [dquote]) = (some [[' ', 'x', ' ']], none) := by
  refine ⟨spec_C3.1 ['a', 'b'] [['a', 'b']] (by decide) (Or.inl (by decide)) (by decide),
    spec_C3.2.1 [' ', 'x', ' '] (by decide) (by decide)⟩

/-- C4.  The dual escape rule: inside a quote, escape followed by the open
quote rune emits that rune and consumes both, while any other rune (including
an escape not followed by the matching quote) is appended verbatim; outside a
quote, escape followed by either recognized quote rune emits that rune and
consumes both; in particular `tokenize "it\'s fine" = ["it's", "fine"]`. -/
theorem spec_C4 :
    (∀ (s : PkgState) (i : Nat) (rest : List Char), s.lastQuoteRune ≠ runeZero →
      tokenizeLoop s i (quoteEscapeRune :: s.lastQuoteRune :: rest) =
        tokenizeLoop { s with builder := s.builder ++ [s.lastQuoteRune] } (i + 2) rest) ∧
    (∀ (s : PkgState) (i : Nat) (c : Char) (rest : List Char), s.lastQuoteRune ≠ runeZero →
      c ≠ s.lastQuoteRune → (c = quoteEscapeRune → rest.head? ≠ some s.lastQuoteRune) →
      tokenizeLoop s i (c :: rest) =
        tokenizeLoop { s with builder := s.builder ++ [c] } (i + 1) rest) ∧
    (∀ (s : PkgState) (i : Nat) (next : Char) (rest : List Char),
      s.lastQuoteRune = runeZero → (next = dquote ∨ next = squote) →
      tokenizeLoop s i (quoteEscapeRune :: next :: rest) =
        tokenizeLoop { s with builder := s.builder ++ [next] } (i + 2) rest) ∧
    tokenize ['i', 't', quoteEscapeRune, squote, 's', ' ', 'f', 'i', 'n', 'e'] =
      (some [['i', 't', squote, 's'], ['f', 'i', 'n', 'e']], none) := by
  refine ⟨tokenizeLoop_esc_inQuote, ?_, ?_, by decide⟩
  · intro s i c rest hne hcq hescn
    have htrig : ¬ escTrigger s c rest.head? := by
      rintro ⟨h1, ⟨_, hh⟩ | ⟨hz, _⟩⟩
      · exact hescn h1 hh
      · exact hne hz
    rw [tokenizeLoop_cons s i c rest htrig,
      show step1 s i c = { s with builder := s.builder ++ [c] } from by
        simp [step1, hne, hcq]]
  · intro s i next rest hz hn
    exact tokenizeLoop_esc_noQuote s i next rest hz (mem_quoteRunes.mpr hn)

/-- Witness for C4: the three escape-rule conjuncts at concrete states. -/
theorem spec_C4_witness :
    tokenizeLoop ⟨[], dquote, 0, []⟩ 0 [quoteEscapeRune, dquote] =
      tokenizeLoop ⟨[], dquote, 0, [dquote]⟩ (0 + 2) [] ∧
    tokenizeLoop ⟨[], dquote, 0, []⟩ 0 ['x'] =
      tokenizeLoop ⟨[], dquote, 0, ['x']⟩ (0 + 1) [] ∧
    tokenizeLoop initState 0 [quoteEscapeRune, squote] =
      tokenizeLoop { initState with builder := initState.builder ++ [squote] } (0 + 2) [] := by
  refine ⟨spec_C4.1 ⟨[], dquote, 0, []⟩ 0 [] (by decide),
    spec_C4.2.1 ⟨[], dquote, 0, []⟩ 0 'x' [] (by decide) (by decide) (by decide),
    spec_C4.2.2.1 initState 0 squote [] (by decide) (Or.inr rfl)⟩

/-- Counterexample to C5 as stated: a closed empty quoted span followed by
whitespace yields NO empty token — `tokenize "\"\" a"` returns `["a"]` only,
because the whitespace branch is skipped when the accumulator is empty. -/
theorem spec_C5_cex :
    tokenize [dquote, dquote, ' ', 'a'] = (some [['a']], none) ∧
    ([] : List Char) ∉ [(['a'] : List Char)] := by decide

/-- C5 (amended).  When no quote is open and whitespace is met, the
accumulator is flushed as a token only when it is non-empty; with an empty
accumulator the whitespace is skipped and no token is emitted, so no output
token is ever empty — in particular an adjacent empty quoted pair followed by
whitespace contributes no token. -/
theorem spec_C5 :
    (∀ (s : PkgState) (i : Nat) (c : Char) (rest : List Char),
      s.lastQuoteRune = runeZero → goIsSpace c → s.builder ≠ [] →
      tokenizeLoop s i (c :: rest) =
        tokenizeLoop { s with tokenizedLines := s.tokenizedLines ++ [s.builder], builder := ([] : List Char) } (i + 1) rest) ∧
    (∀ (s : PkgState) (i : Nat) (c : Char) (rest : List Char),
      s.lastQuoteRune = runeZero → goIsSpace c → s.builder = [] →
      tokenizeLoop s i (c :: rest) = tokenizeLoop s (i + 1) rest) ∧
    (∀ (cs : List Char) (ts : List (List Char)), (tokenize cs).1 = some ts →
      ([] : List Char) ∉ ts) ∧
    tokenize [dquote, dquote, ' ', 'a'] = (some [['a']], none) := by
  refine ⟨?_, ?_, ?_, by decide⟩
  · intro s i c rest hz hsp hb
    have htrig : ¬ escTrigger s c rest.head? := by
      rintro ⟨h1, _⟩
      rw [h1, goIsSpace_escape] at hsp
      exact absurd hsp (by simp)
    rw [tokenizeLoop_cons s i c rest htrig,
      show step1 s i c = { s with tokenizedLines := s.tokenizedLines ++ [s.builder], builder := ([] : List Char) } from by
        simp [step1, hz, hsp, hb, not_quote_of_space hsp]]
  · intro s i c rest hz hsp hb
    have htrig : ¬ escTrigger s c rest.head? := by
      rintro ⟨h1, _⟩
      rw [h1, goIsSpace_escape] at hsp
      exact absurd hsp (by simp)
    rw [tokenizeLoop_cons s i c rest htrig,
      show step1 s i c = s from by simp [step1, hz, hsp, hb]]
  · intro cs ts h
    obtain ⟨hz, hts⟩ := tokenize_ok_returnedTokens cs ts h
    subst hts
    rw [returnedTokens]
    intro hmem
    rcases List.mem_append.mp hmem with h1 | h2
    · exact tokenizeLoop_noEmptyTokens cs h1
    · by_cases hb : (tokenizeLoop initState 0 cs).builder = []
      · rw [if_pos hb] at h2
        exact absurd h2 (List.not_mem_nil _)
      · rw [if_neg hb] at h2
        exact hb (List.mem_singleton.mp h2).symm

/-- Witness for C5: the flush and skip steps at concrete states, and the
no-empty-token conclusion on a concrete successful run. -/
theorem spec_C5_witness :
    tokenizeLoop ⟨[], runeZero, 0, ['a']⟩ 0 [' '] =
      tokenizeLoop ⟨[['a']], runeZero, 0, []⟩ (0 + 1) [] ∧
    tokenizeLoop initState 0 [' '] = tokenizeLoop initState (0 + 1) [] ∧
    ([] : List Char) ∉ [(['a'] : List Char)] := by
  refine ⟨spec_C5.1 ⟨[], runeZero, 0, ['a']⟩ 0 ' ' [] rfl (by decide) (by decide),
    spec_C5.2.1 initState 0 ' ' [] rfl (by decide) rfl,
    spec_C5.2.2.1 ['a'] [['a']] (by decide)⟩

/-- C6 is violated by the code (shared package-level state): calling
`TokenizeLine` twice with the same input `"a"` returns `["a"]` first and
`["a", "aa"]` second — the stale `tokenizedLines` slice and the never-reset
builder leak into the second call. -/
theorem spec_C6 :
    (TokenizeLine initState ['a']).2.1 = some [['a']] ∧
    (TokenizeLine (TokenizeLine initState ['a']).1 ['a']).2.1 =
      some [['a'], ['a', 'a']] ∧
    (TokenizeLine (TokenizeLine initState ['a']).1 ['a']).2.1 ≠
      (TokenizeLine initState ['a']).2.1 := by decide

/-- C7.  `Ellipsize` applies the fixed threshold 3 at both ends: `from ≤ 3`
keeps the start with no leading ellipsis, otherwise the excerpt starts at
`from` behind `"..."`; `to ≥ len−3` runs to the end with no trailing ellipsis,
otherwise it ends at `to` before `"..."`; and
`Ellipsize 0 5 "hello world" = "hello..."`. -/
theorem spec_C7 :
    (∀ (f t : Int) (val : List Char), f ≤ threeChars →
      t < (val.length : Int) - threeChars →
      Ellipsize f t val = val.take t.toNat ++ ellipsisDots) ∧
    (∀ (f t : Int) (val : List Char), f ≤ threeChars →
      (val.length : Int) - threeChars ≤ t →
      Ellipsize f t val = val) ∧
    (∀ (f t : Int) (val : List Char), threeChars < f →
      t < (val.length : Int) - threeChars →
      Ellipsize f t val =
        ellipsisDots ++ (val.drop f.toNat).take (t - f).toNat ++ ellipsisDots) ∧
    (∀ (f t : Int) (val : List Char), threeChars < f →
      (val.length : Int) - threeChars ≤ t →
      Ellipsize f t val = ellipsisDots ++ val.drop f.toNat) ∧
    Ellipsize 0 5 ['h', 'e', 'l', 'l', 'o', ' ', 'w', 'o', 'r', 'l', 'd'] =
      ['h', 'e', 'l', 'l', 'o', '.', '.', '.'] := by
  refine ⟨?_, ?_, ?_, ?_, by decide⟩
  · intro f t val hf ht
    simp only [Ellipsize, threeChars] at ht hf ⊢
    rw [if_pos hf, if_pos hf,
      if_neg (by omega : ¬ t ≥ (val.length : Int) - 3),
      if_neg (by omega : ¬ t ≥ (val.length : Int) - 3)]
    simp
  · intro f t val hf ht
    simp only [Ellipsize, threeChars] at ht hf ⊢
    rw [if_pos hf, if_pos hf,
      if_pos (by omega : t ≥ (val.length : Int) - 3),
      if_pos (by omega : t ≥ (val.length : Int) - 3)]
    have htn : ((val.length : Int) - 0).toNat = val.length := by omega
    simp [htn]
  · intro f t val hf ht
    simp only [Ellipsize, threeChars] at ht hf ⊢
    rw [if_neg (by omega : ¬ f ≤ 3), if_neg (by omega : ¬ f ≤ 3),
      if_neg (by omega : ¬ t ≥ (val.length : Int) - 3),
      if_neg (by omega : ¬ t ≥ (val.length : Int) - 3)]
  · intro f t val hf ht
    simp only [Ellipsize, threeChars] at ht hf ⊢
    rw [if_neg (by omega : ¬ f ≤ 3), if_neg (by omega : ¬ f ≤ 3),
      if_pos (by omega : t ≥ (val.length : Int) - 3),
      if_pos (by omega : t ≥ (val.length : Int) - 3)]
    have hlen : (val.drop f.toNat).length ≤ ((val.length : Int) - f).toNat := by
      rw [List.length_drop]; omega
    rw [List.take_of_length_le hlen]
    simp

/-- Witness for C7: the four threshold cases at concrete inputs. -/
theorem spec_C7_witness :
    Ellipsize 0 5 ['h', 'e', 'l', 'l', 'o', ' ', 'w', 'o', 'r', 'l', 'd'] =
      (['h', 'e', 'l', 'l', 'o', ' ', 'w', 'o', 'r', 'l', 'd'] : List Char).take
        (5 : Int).toNat ++ ellipsisDots ∧
    Ellipsize 0 9 ['h', 'e', 'l', 'l', 'o', ' ', 'w', 'o', 'r', 'l', 'd'] =
      ['h', 'e', 'l', 'l', 'o', ' ', 'w', 'o', 'r', 'l', 'd'] ∧
    Ellipsize 5 6 ['h', 'e', 'l', 'l', 'o', ' ', 'w', 'o', 'r', 'l', 'd'] =
      ellipsisDots ++
        (((['h', 'e', 'l', 'l', 'o', ' ', 'w', 'o', 'r', 'l', 'd'] : List Char).drop
          (5 : Int).toNat).take ((6 : Int) - 5).toNat) ++ ellipsisDots ∧
    Ellipsize 5 9 ['h', 'e', 'l', 'l', 'o', ' ', 'w', 'o', 'r', 'l', 'd'] =
      ellipsisDots ++ (['h', 'e', 'l', 'l', 'o', ' ', 'w', 'o', 'r', 'l', 'd'] :
        List Char).drop (5 : Int).toNat := by
  refine ⟨spec_C7.1 0 5 _ (by decide) (by decide),
    spec_C7.2.1 0 9 _ (by decide) (by decide),
    spec_C7.2.2.1 5 6 _ (by decide) (by decide),
    spec_C7.2.2.2.1 5 9 _ (by decide) (by decide)⟩

/-- Counterexample to C8 as stated: with `(from, to) = (1, 2)` on `"ab"`
(valid bounds), the result `"ab"` contains the character `'a'`, which is
neither in `text[1:2] = "b"` nor in the ellipsis marker. -/
theorem spec_C8_cex :
    ((0 : Int) ≤ 1 ∧ (1 : Int) ≤ 2 ∧
      (2 : Int) ≤ ((['a', 'b'] : List Char).length : Int)) ∧
    Ellipsize 1 2 ['a', 'b'] = ['a', 'b'] ∧
    'a' ∈ Ellipsize 1 2 ['a', 'b'] ∧
    'a' ∉ ((['a', 'b'] : List Char).drop (1 : Int).toNat).take ((2 : Int) - 1).toNat ∧
    'a' ∉ ellipsisDots := by decide

/-- C8 (amended).  For valid `(from, to)` the result of `Ellipsize` contains
no characters other than characters of `text` (the clamping can widen the
excerpt beyond `text[from:to]`) and the ellipsis marker. -/
theorem spec_C8 :
    ∀ (f t : Int) (val : List Char), 0 ≤ f → f ≤ t → t ≤ (val.length : Int) →
      ∀ c ∈ Ellipsize f t val, c ∈ val ∨ c ∈ ellipsisDots := by
  intro f t val h0 hft htl c hc
  simp only [Ellipsize] at hc
  rcases List.mem_append.mp hc with hc1 | hc2
  · rcases List.mem_append.mp hc1 with hpre | hsl
    · split_ifs at hpre with h
      · exact absurd hpre (List.not_mem_nil c)
      · exact Or.inr hpre
    · exact Or.inl (List.drop_subset _ _ (List.take_subset _ _ hsl))
  · split_ifs at hc2 with h
    · exact absurd hc2 (List.not_mem_nil c)
    · exact Or.inr hc2

/-- Witness for C8: the amended bound at the counterexample's input. -/
theorem spec_C8_witness :
    ((0 : Int) ≤ 1) ∧ ((1 : Int) ≤ 2) ∧
    ((2 : Int) ≤ ((['a', 'b'] : List Char).length : Int)) ∧
    ('a' ∈ Ellipsize 1 2 ['a', 'b']) ∧
    ('a' ∈ (['a', 'b'] : List Char) ∨ 'a' ∈ ellipsisDots) := by
  refine ⟨by decide, by decide, by decide, by decide,
    spec_C8 1 2 ['a', 'b'] (by decide) (by decide) (by decide) 'a' (by decide)⟩

/-- Counterexample to C9 as stated: on input `"\""` the tokenizer fails at
position 0 and passes `(0-3, 0+4)` to `Ellipsize`; `from = -3 < 0` and
`to = 4 > 1 = len`, so the raw arguments violate the documented precondition
`0 ≤ from ≤ to ≤ len`. -/
theorem spec_C9_cex :
    (tokenize [dquote]).2 = some { pos := 0, context := [dquote] } ∧
    ¬ ((0 : Int) ≤ (0 : Int) - errUnterminatedQuote) ∧
    ¬ ((0 : Int) + errUnterminatedQuote + 1 ≤ (([dquote] : List Char).length : Int)) := by
  decide

/-- C9 (amended).  Although the raw arguments `(p-3, p+4)` the error path
passes to `Ellipsize` can fall outside `[0, len]`, the indices `Ellipsize`
actually slices with — after its threshold clamping — always satisfy
`0 ≤ pre ≤ post ≤ len`, so the call never slices out of bounds. -/
theorem spec_C9 :
    ∀ (cs : List Char) (e : TokError), (tokenize cs).2 = some e →
      (0 : Int) ≤ (if (e.pos : Int) - errUnterminatedQuote ≤ threeChars then 0
          else (e.pos : Int) - errUnterminatedQuote) ∧
      (if (e.pos : Int) - errUnterminatedQuote ≤ threeChars then 0
          else (e.pos : Int) - errUnterminatedQuote) ≤
        (if (e.pos : Int) + errUnterminatedQuote + 1 ≥ (cs.length : Int) - threeChars
          then (cs.length : Int) else (e.pos : Int) + errUnterminatedQuote + 1) ∧
      (if (e.pos : Int) + errUnterminatedQuote + 1 ≥ (cs.length : Int) - threeChars
          then (cs.length : Int) else (e.pos : Int) + errUnterminatedQuote + 1) ≤
        (cs.length : Int) := by
  intro cs e h
  have hlt := tokenize_error_pos_lt cs e h
  simp only [errUnterminatedQuote, threeChars]
  refine ⟨?_, ?_, ?_⟩ <;> split_ifs <;> omega

/-- Witness for C9: the clamped bounds at the failing input `"\""`. -/
theorem spec_C9_witness :
    (0 : Int) ≤ 0 ∧ (0 : Int) ≤ ((([dquote] : List Char).length : Int)) ∧
    ((([dquote] : List Char).length : Int)) ≤ ((([dquote] : List Char).length : Int)) := by
  exact spec_C9 [dquote] { pos := 0, context := [dquote] } (by decide)

/-- C10.  When stdin is a pipe, reading and tokenizing succeed, and at least
one token results, `GetTemplateFilenames` returns a nil slice and a nil error:
the guard branch wraps the (necessarily nil) tokenizer error with
`errors.Wrap`, and wrapping nil yields nil, so the piped filenames are
silently discarded. -/
theorem spec_C10 :
    (∀ msg : List Char, errorsWrap none msg = none) ∧
    (∀ (env : DiskEnv) (ltf : List (List Char)) (ps : PkgState)
      (ts : List (List Char)),
      env.stdinStatFails = false → env.stdinIsCharDevice = false →
      env.stdinReadFails = false →
      (TokenizeLine ps env.stdinContent).2 = (some ts, none) → ts ≠ [] →
      (GetTemplateFilenames env ltf ps).1 = (none, none)) := by
  refine ⟨fun msg => rfl, ?_⟩
  intro env ltf ps ts h1 h2 h3 h4 h5
  have h42 : (TokenizeLine ps env.stdinContent).2.2 = none := by rw [h4]
  have h41 : (TokenizeLine ps env.stdinContent).2.1 = some ts := by rw [h4]
  simp [GetTemplateFilenames, h1, h2, h3, h41, h42, errorsWrap, List.length_pos, h5]

/-- Witness for C10: piping the single filename `"a"`. -/
theorem spec_C10_witness :
    (TokenizeLine initState ['a']).2 = (some [['a']], none) ∧
    (GetTemplateFilenames ⟨[], false, false, false, ['a']⟩ [] initState).1 =
      (none, none) := by
  refine ⟨by decide, spec_C10.2 ⟨[], false, false, false, ['a']⟩ [] initState [['a']]
    rfl rfl rfl (by decide) (by decide)⟩

end Vortex
